import Mathlib

/-!
Verification of the infrabase machine-inventory core (`src/main.rs`).

The development shallowly embeds the pure core of the program:

* the IPv4 increment step `increment_ip` (main.rs lines 182-196), modelling an
  address as its list of four octets;
* the WireGuard address allocator `get_unused_wireguard_ip`
  (main.rs lines 198-211), with the loop written as a fuel-indexed recursion
  (fuel `2 ^ 32` dominates the longest possible scan, and a distinct
  `outOfFuel` marker keeps the embedding honest about termination);
* the per-destination endpoint resolution and SSH-config generation of
  `print_ssh_config` (main.rs lines 297-341), with the database rows passed in
  as explicit lists and the printed host blocks returned as a list of records.

Machine integers: the Rust octets are `u8` values; they are modelled as `Nat`
together with the well-formedness predicate `wfIp` (four octets, each `< 256`).
The link priority and the ssh ports are `i32` in the database schema and are
modelled as `Int`.
-/

namespace Infrabase

/-- An IPv4 address as its four octets, big-endian (the result of
`Ipv4Addr::octets`). -/
abbrev Ipv4 := List Nat

/-- Well-formedness of the octet model: exactly four octets, each a `u8`
value. -/
def wfIp (ip : Ipv4) : Prop := ip.length = 4 ∧ ∀ o ∈ ip, o < 256

instance : DecidablePred wfIp := fun ip => by
  unfold wfIp; infer_instance

/-- The body of the `for i in (0..4).rev()` loop of `increment_ip`
(main.rs lines 187-194), acting on the octets in reverse (least-significant
first) order: the first octet below 255 is incremented and the loop breaks;
each 255 octet passed on the way is set to 0. -/
def incLoop : List Nat → List Nat
  | [] => []
  | o :: rest => if o < 255 then (o + 1) :: rest else 0 :: incLoop rest

/-- `increment_ip` (main.rs lines 182-196): `None` on `255.255.255.255`,
otherwise the per-octet carry increment. -/
def increment_ip (ip : Ipv4) : Option Ipv4 :=
  if ip = [255, 255, 255, 255] then none
  else some (incLoop ip.reverse).reverse

/-- Little-endian value of an octet list (base 256). -/
def valLE : List Nat → Nat
  | [] => 0
  | o :: rest => o + 256 * valLE rest

/-- The value of an address under big-endian 32-bit counter semantics. -/
def ipToNat (ip : Ipv4) : Nat := valLE ip.reverse

/-- The address whose big-endian counter value is `n` (for `n < 2 ^ 32`). -/
def ipOfNat (n : Nat) : Ipv4 :=
  [n / 16777216 % 256, n / 65536 % 256, n / 256 % 256, n % 256]

lemma wfIp_elim (ip : Ipv4) (h : wfIp ip) :
    ∃ a b c d, ip = [a, b, c, d] ∧ a < 256 ∧ b < 256 ∧ c < 256 ∧ d < 256 := by
  obtain ⟨hl, hb⟩ := h
  match ip, hl with
  | [a, b, c, d], _ =>
    exact ⟨a, b, c, d, rfl, hb a (by simp), hb b (by simp), hb c (by simp),
      hb d (by simp)⟩

lemma ipToNat_quad (a b c d : Nat) :
    ipToNat [a, b, c, d] = ((a * 256 + b) * 256 + c) * 256 + d := by
  simp [ipToNat, valLE]
  ring

lemma ipToNat_lt (ip : Ipv4) (h : wfIp ip) : ipToNat ip < 4294967296 := by
  obtain ⟨a, b, c, d, rfl, ha, hb, hc, hd⟩ := wfIp_elim ip h
  rw [ipToNat_quad]
  omega

lemma wfIp_ipOfNat (n : Nat) : wfIp (ipOfNat n) := by
  refine ⟨rfl, ?_⟩
  intro o ho
  simp [ipOfNat] at ho
  rcases ho with h | h | h | h <;> omega

lemma ipToNat_ipOfNat (n : Nat) (h : n < 4294967296) :
    ipToNat (ipOfNat n) = n := by
  rw [ipOfNat, ipToNat_quad]
  omega

lemma ipOfNat_ipToNat (ip : Ipv4) (h : wfIp ip) : ipOfNat (ipToNat ip) = ip := by
  obtain ⟨a, b, c, d, rfl, ha, hb, hc, hd⟩ := wfIp_elim ip h
  rw [ipToNat_quad, ipOfNat]
  have h1 : (((a * 256 + b) * 256 + c) * 256 + d) / 16777216 % 256 = a := by omega
  have h2 : (((a * 256 + b) * 256 + c) * 256 + d) / 65536 % 256 = b := by omega
  have h3 : (((a * 256 + b) * 256 + c) * 256 + d) / 256 % 256 = c := by omega
  have h4 : (((a * 256 + b) * 256 + c) * 256 + d) % 256 = d := by omega
  rw [h1, h2, h3, h4]

lemma ipToNat_inj (ip ip' : Ipv4) (h : wfIp ip) (h' : wfIp ip')
    (heq : ipToNat ip = ipToNat ip') : ip = ip' := by
  rw [← ipOfNat_ipToNat ip h, ← ipOfNat_ipToNat ip' h', heq]

lemma incLoop_length (l : List Nat) : (incLoop l).length = l.length := by
  induction l with
  | nil => rfl
  | cons o rest ih =>
    by_cases h : o < 255 <;> simp [incLoop, h, ih]

lemma incLoop_bounds (l : List Nat) (h : ∀ o ∈ l, o < 256) :
    ∀ o ∈ incLoop l, o < 256 := by
  induction l with
  | nil => simp [incLoop]
  | cons o rest ih =>
    by_cases ho : o < 255
    · intro x hx
      simp [incLoop, ho] at hx
      rcases hx with rfl | hx
      · have := h o (by simp)
        omega
      · exact h x (by simp [hx])
    · intro x hx
      simp [incLoop, ho] at hx
      rcases hx with rfl | hx
      · omega
      · exact ih (fun y hy => h y (by simp [hy])) x hx

lemma incLoop_val (l : List Nat) (hb : ∀ o ∈ l, o < 256)
    (hlt : ∃ o ∈ l, o < 255) : valLE (incLoop l) = valLE l + 1 := by
  induction l with
  | nil => simp at hlt
  | cons o rest ih =>
    by_cases ho : o < 255
    · simp [incLoop, ho, valLE]
      ring
    · have ho255 : o = 255 := by
        have := hb o (by simp)
        omega
      have hrest : ∃ x ∈ rest, x < 255 := by
        rcases hlt with ⟨x, hx, hxlt⟩
        rcases List.mem_cons.mp hx with rfl | hx
        · omega
        · exact ⟨x, hx, hxlt⟩
      simp [incLoop, ho, valLE,
        ih (fun y hy => hb y (by simp [hy])) hrest, ho255]
      ring

lemma increment_ip_broadcast : increment_ip [255, 255, 255, 255] = none := rfl

lemma increment_ip_some (ip : Ipv4) (h : wfIp ip)
    (hne : ip ≠ [255, 255, 255, 255]) :
    ∃ ip', increment_ip ip = some ip' ∧ wfIp ip' ∧
      ipToNat ip' = ipToNat ip + 1 := by
  refine ⟨(incLoop ip.reverse).reverse, by simp [increment_ip, hne], ?_, ?_⟩
  · obtain ⟨hl, hb⟩ := h
    refine ⟨by simp [incLoop_length, hl], ?_⟩
    intro o ho
    simp at ho
    exact incLoop_bounds _ (by intro x hx; exact hb x (by simpa using hx)) o ho
  · obtain ⟨a, b, c, d, rfl, ha, hb, hc, hd⟩ := wfIp_elim ip h
    have hne' : ¬(a = 255 ∧ b = 255 ∧ c = 255 ∧ d = 255) := by
      intro ⟨h1, h2, h3, h4⟩
      exact hne (by rw [h1, h2, h3, h4])
    have hrev : ([a, b, c, d] : List Nat).reverse = [d, c, b, a] := by simp
    rw [ipToNat, List.reverse_reverse, ipToNat, hrev]
    refine incLoop_val [d, c, b, a] ?_ ?_
    · intro o ho
      simp at ho
      rcases ho with rfl | rfl | rfl | rfl <;> omega
    · simp
      omega

lemma increment_ip_eq_some (ip ip' : Ipv4) (h : wfIp ip)
    (heq : increment_ip ip = some ip') :
    wfIp ip' ∧ ipToNat ip' = ipToNat ip + 1 := by
  by_cases hne : ip = [255, 255, 255, 255]
  · rw [hne, increment_ip_broadcast] at heq
    cases heq
  · obtain ⟨ip'', heq'', hwf, hval⟩ := increment_ip_some ip h hne
    rw [heq''] at heq
    cases heq
    exact ⟨hwf, hval⟩

lemma increment_ip_eq_none (ip : Ipv4) (h : wfIp ip) :
    increment_ip ip = none ↔ ip = [255, 255, 255, 255] := by
  constructor
  · intro hn
    by_contra hne
    obtain ⟨ip', heq, _, _⟩ := increment_ip_some ip h hne
    rw [heq] at hn
    cases hn
  · intro hb
    rw [hb]
    rfl

/-- The error variants of `enum Error` (main.rs lines 35-57) reachable in the
pure core modelled here: the resolver's missing-source-machine failure and the
allocator's exhaustion failure. -/
inductive Error where
  | MissingSourceMachine (source_machine : String)
  | NoWireGuardAddressAvailable
  deriving DecidableEq

/-- The snafu `display` message of each modelled error variant
(main.rs lines 39-40 and 51-52). -/
def Error.display : Error → String
  | .MissingSourceMachine m =>
      "Could not find source machine \x22" ++ m ++ "\x22 in database"
  | .NoWireGuardAddressAvailable =>
      "Could not find an unused WireGuard IP address; check WIREGUARD_IP_START and WIREGUARD_IP_END"

/-- Outcome of the allocator scan. `outOfFuel` is an artifact of the fuelled
embedding and is proved unreachable from a well-formed start address. -/
inductive AllocResult where
  | ok (ip : Ipv4)
  | err (e : Error)
  | outOfFuel
  deriving DecidableEq

/-- The scan loop of `get_unused_wireguard_ip` (main.rs lines 200-209): at
each candidate, return it if it is not an existing WireGuard address; stop
with the exhaustion error if the candidate is `end_ip` (checked after the
membership test) or if `increment_ip` has no successor. -/
def allocGo (existing : List Ipv4) (end_ip : Ipv4) : Nat → Ipv4 → AllocResult
  | 0, _ => .outOfFuel
  | fuel + 1, ip =>
    if ip ∈ existing then
      if ip = end_ip then .err .NoWireGuardAddressAvailable
      else
        match increment_ip ip with
        | none => .err .NoWireGuardAddressAvailable
        | some ip' => allocGo existing end_ip fuel ip'
    else .ok ip

/-- `get_unused_wireguard_ip` (main.rs lines 198-211) over the loaded set of
existing WireGuard addresses. Fuel `2 ^ 32` exceeds the length of any scan
(the candidate sequence from any address has at most `2 ^ 32` elements). -/
def get_unused_wireguard_ip (existing : List Ipv4) (start_ip end_ip : Ipv4) :
    AllocResult :=
  allocGo existing end_ip 4294967296 start_ip

lemma allocGo_first_free (existing : List Ipv4) (end_ip : Ipv4)
    (he : wfIp end_ip) :
    ∀ (k : Nat) (fuel : Nat) (ip : Ipv4), wfIp ip →
      ipToNat ip + k ≤ ipToNat end_ip →
      ipOfNat (ipToNat ip + k) ∉ existing →
      (∀ j, j < k → ipOfNat (ipToNat ip + j) ∈ existing) →
      k + 1 ≤ fuel →
      allocGo existing end_ip fuel ip = .ok (ipOfNat (ipToNat ip + k)) := by
  intro k
  induction k with
  | zero =>
    intro fuel ip hip hle hfree _ hfuel
    obtain ⟨fuel', rfl⟩ : ∃ fuel', fuel = fuel' + 1 := by
      cases fuel with
      | zero => omega
      | succ n => exact ⟨n, rfl⟩
    have hip_eq : ipOfNat (ipToNat ip + 0) = ip := by
      rw [Nat.add_zero, ipOfNat_ipToNat ip hip]
    rw [hip_eq] at hfree ⊢
    simp [allocGo, hfree]
  | succ k ih =>
    intro fuel ip hip hle hfree hprev hfuel
    obtain ⟨fuel', rfl⟩ : ∃ fuel', fuel = fuel' + 1 := by
      cases fuel with
      | zero => omega
      | succ n => exact ⟨n, rfl⟩
    have hmem : ip ∈ existing := by
      have := hprev 0 (by omega)
      rwa [Nat.add_zero, ipOfNat_ipToNat ip hip] at this
    have hlt_end : ipToNat ip < ipToNat end_ip := by omega
    have hne_end : ip ≠ end_ip := by
      intro heq
      rw [heq] at hlt_end
      omega
    have hne_bcast : ip ≠ [255, 255, 255, 255] := by
      intro heq
      have : ipToNat ip = 4294967295 := by rw [heq]; rfl
      have := ipToNat_lt end_ip he
      omega
    obtain ⟨ip', hinc, hip', hval⟩ := increment_ip_some ip hip hne_bcast
    have step :
        allocGo existing end_ip (fuel' + 1) ip =
          allocGo existing end_ip fuel' ip' := by
      simp [allocGo, hmem, hne_end, hinc]
    rw [step]
    have goal_eq : ipToNat ip' + k = ipToNat ip + (k + 1) := by omega
    rw [← goal_eq] at hle hfree ⊢
    refine ih fuel' ip' hip' hle hfree ?_ (by omega)
    intro j hj
    have := hprev (j + 1) (by omega)
    have shift : ipToNat ip' + j = ipToNat ip + (j + 1) := by omega
    rwa [shift]

lemma allocGo_exhaust (existing : List Ipv4) (end_ip : Ipv4)
    (he : wfIp end_ip) :
    ∀ (d : Nat) (fuel : Nat) (ip : Ipv4), wfIp ip →
      ipToNat ip + d = ipToNat end_ip →
      (∀ j, j ≤ d → ipOfNat (ipToNat ip + j) ∈ existing) →
      d + 1 ≤ fuel →
      allocGo existing end_ip fuel ip = .err .NoWireGuardAddressAvailable := by
  intro d
  induction d with
  | zero =>
    intro fuel ip hip hend hall hfuel
    obtain ⟨fuel', rfl⟩ : ∃ fuel', fuel = fuel' + 1 := by
      cases fuel with
      | zero => omega
      | succ n => exact ⟨n, rfl⟩
    have hmem : ip ∈ existing := by
      have := hall 0 (by omega)
      rwa [Nat.add_zero, ipOfNat_ipToNat ip hip] at this
    have hip_end : ip = end_ip := ipToNat_inj ip end_ip hip he (by omega)
    subst hip_end
    simp [allocGo, hmem]
  | succ d ih =>
    intro fuel ip hip hend hall hfuel
    obtain ⟨fuel', rfl⟩ : ∃ fuel', fuel = fuel' + 1 := by
      cases fuel with
      | zero => omega
      | succ n => exact ⟨n, rfl⟩
    have hmem : ip ∈ existing := by
      have := hall 0 (by omega)
      rwa [Nat.add_zero, ipOfNat_ipToNat ip hip] at this
    have hlt_end : ipToNat ip < ipToNat end_ip := by omega
    have hne_end : ip ≠ end_ip := by
      intro heq
      rw [heq] at hlt_end
      omega
    have hne_bcast : ip ≠ [255, 255, 255, 255] := by
      intro heq
      have : ipToNat ip = 4294967295 := by rw [heq]; rfl
      have := ipToNat_lt end_ip he
      omega
    obtain ⟨ip', hinc, hip', hval⟩ := increment_ip_some ip hip hne_bcast
    have step :
        allocGo existing end_ip (fuel' + 1) ip =
          allocGo existing end_ip fuel' ip' := by
      simp [allocGo, hmem, hne_end, hinc]
    rw [step]
    refine ih fuel' ip' hip' (by omega) ?_ (by omega)
    intro j hj
    have := hall (j + 1) (by omega)
    have shift : ipToNat ip' + j = ipToNat ip + (j + 1) := by omega
    rwa [shift]

lemma allocGo_not_outOfFuel (existing : List Ipv4) (end_ip : Ipv4) :
    ∀ (fuel : Nat) (ip : Ipv4), wfIp ip →
      4294967296 - ipToNat ip ≤ fuel →
      allocGo existing end_ip fuel ip ≠ .outOfFuel := by
  intro fuel
  induction fuel with
  | zero =>
    intro ip hip hfuel
    have := ipToNat_lt ip hip
    omega
  | succ fuel ih =>
    intro ip hip hfuel
    by_cases hmem : ip ∈ existing
    · by_cases hend : ip = end_ip
      · subst hend
        simp [allocGo, hmem]
      · rcases hinc : increment_ip ip with _ | ip'
        · simp [allocGo, hmem, hend, hinc]
        · obtain ⟨hip', hval⟩ := increment_ip_eq_some ip ip' hip hinc
          have step :
              allocGo existing end_ip (fuel + 1) ip =
                allocGo existing end_ip fuel ip' := by
            simp [allocGo, hmem, hend, hinc]
          rw [step]
          refine ih ip' hip' ?_
          have := ipToNat_lt ip hip
          omega
    · simp [allocGo, hmem]

/-- An `IpNetwork` value: an IP address together with a prefix length; `ip`
is the IP portion (`IpNetwork::ip()`). The address payload is an arbitrary
type `α` since the resolver never inspects it. -/
structure IpNet (α : Type) where
  ip : α
  prefixLen : Nat
  deriving DecidableEq

/-- The fields of the `Machine` row used by `print_ssh_config`
(models/schema referenced from main.rs). -/
structure Machine (α : Type) where
  hostname : String
  owner : String
  ssh_port : Option Int
  wireguard_ip : Option (IpNet α)
  deriving DecidableEq

/-- A `MachineAddress` row: a machine's address on one named network, with an
optional per-address ssh port override. -/
structure MachineAddress (α : Type) where
  network : String
  address : IpNet α
  ssh_port : Option Int
  deriving DecidableEq

/-- One emitted SSH `Host` block (main.rs lines 332-337). -/
structure Block (α : Type) where
  owner : String
  hostname : String
  address : α
  port : Int
  deriving DecidableEq

/-- The `(network, other_network) -> priority` map (main.rs line 89), as the
loaded association list; `lookupLink` is `HashMap` lookup. -/
abbrev NetworkLinksMap := List ((String × String) × Int)

/-- `HashMap::get` on the links map (first matching key). -/
def lookupLink (links : NetworkLinksMap) (k : String × String) : Option Int :=
  (links.find? (fun row => decide (row.1 = k))).map (fun row => row.2)

/-- The sort key of main.rs line 318: the priority of a pair, with a default
that is only ever used on pairs filtered out beforehand (the Rust code
`unwrap`s, which is safe after the `contains_key` filter). -/
def linkPriority (links : NetworkLinksMap) (k : String × String) : Int :=
  (lookupLink links k).getD 0

/-- Comparison of network pairs by link priority: the sort order of
main.rs line 318. -/
def priorityLE (links : NetworkLinksMap) (x y : String × String) : Prop :=
  linkPriority links x ≤ linkPriority links y

instance (links : NetworkLinksMap) : DecidableRel (priorityLE links) :=
  fun x y => by unfold priorityLE; infer_instance

instance (links : NetworkLinksMap) : IsTotal (String × String) (priorityLE links) :=
  ⟨fun x y => Int.le_total (linkPriority links x) (linkPriority links y)⟩

instance (links : NetworkLinksMap) : IsTrans (String × String) (priorityLE links) :=
  ⟨fun _ _ _ hxy hyz => le_trans hxy hyz⟩

/-- The best-link query of main.rs lines 315-319: the Cartesian product of
source and destination networks, filtered to the pairs present in the links
map, sorted by priority; the first element of the sorted list (`get(0)`),
if any. -/
def bestLink (links : NetworkLinksMap) (sourceNetworks destNetworks : List String) :
    Option (String × String) :=
  let pairs := (sourceNetworks.product destNetworks).filter
    (fun sd => (lookupLink links sd).isSome)
  (List.insertionSort (priorityLE links) pairs).head?

/-- The per-destination endpoint choice of main.rs lines 319-329. In the
linked case the Rust code `unwrap`s the address lookup; the `(none, none)`
arm is unreachable because the chosen destination network is always drawn
from `addresses` itself. -/
def resolveEndpoint {α : Type} (links : NetworkLinksMap)
    (sourceNetworks : List String) (machine : Machine α)
    (addresses : List (MachineAddress α)) : Option α × Option Int :=
  match bestLink links sourceNetworks (addresses.map (fun a => a.network)) with
  | none => (machine.wireguard_ip.map (fun o => o.ip), machine.ssh_port)
  | some (_, dest_network) =>
    match addresses.find? (fun a => decide (a.network = dest_network)) with
    | some desired_address =>
      (some desired_address.address.ip, desired_address.ssh_port)
    | none => (none, none)

/-- The body of the output loop of main.rs lines 331-338: a host block is
produced exactly when both resolved components are present. -/
def renderBlock {α : Type} (links : NetworkLinksMap)
    (sourceNetworks : List String)
    (md : Machine α × List (MachineAddress α)) : Option (Block α) :=
  match resolveEndpoint links sourceNetworks md.1 md.2 with
  | (some address, some port) => some ⟨md.1.owner, md.1.hostname, address, port⟩
  | _ => none

/-- `print_ssh_config` (main.rs lines 297-341) over loaded data: find the
source machine by hostname (error if absent), take its networks, and emit one
block per machine whose endpoint resolves completely. -/
def print_ssh_config {α : Type} (data : List (Machine α × List (MachineAddress α)))
    (links : NetworkLinksMap) (for_machine : String) :
    Except Error (List (Block α)) :=
  match data.find? (fun md => decide (md.1.hostname = for_machine)) with
  | none => .error (.MissingSourceMachine for_machine)
  | some (_, addresses) =>
    let source_networks := addresses.map (fun a => a.network)
    .ok (data.filterMap (renderBlock links source_networks))

lemma bestLink_eq_none_iff (links : NetworkLinksMap) (S D : List String) :
    bestLink links S D = none ↔
      ∀ s ∈ S, ∀ d ∈ D, lookupLink links (s, d) = none := by
  unfold bestLink
  rw [List.head?_eq_none_iff]
  constructor
  · intro h s hs d hd
    have hperm := List.perm_insertionSort (priorityLE links)
      ((S.product D).filter (fun sd => (lookupLink links sd).isSome))
    rw [h] at hperm
    have hnil := hperm.symm.eq_nil
    rw [List.filter_eq_nil_iff] at hnil
    have := hnil (s, d) (List.mem_product.mpr ⟨hs, hd⟩)
    simpa [Option.isSome_iff_ne_none] using this
  · intro h
    have hnil : (S.product D).filter (fun sd => (lookupLink links sd).isSome) = [] := by
      rw [List.filter_eq_nil_iff]
      intro sd hsd
      obtain ⟨s, d⟩ := sd
      obtain ⟨hs, hd⟩ := List.mem_product.mp hsd
      simp [h s hs d hd]
    rw [hnil]
    rfl

lemma bestLink_eq_some (links : NetworkLinksMap) (S D : List String)
    (s d : String) (h : bestLink links S D = some (s, d)) :
    s ∈ S ∧ d ∈ D ∧ (lookupLink links (s, d)).isSome ∧
      ∀ s' ∈ S, ∀ d' ∈ D, (lookupLink links (s', d')).isSome →
        linkPriority links (s, d) ≤ linkPriority links (s', d') := by
  have h2 : (List.insertionSort (priorityLE links)
      ((S.product D).filter (fun sd => (lookupLink links sd).isSome))).head? =
        some (s, d) := h
  set pairs := (S.product D).filter (fun sd => (lookupLink links sd).isSome)
    with hpairs
  have hperm := List.perm_insertionSort (priorityLE links) pairs
  have hsorted := List.sorted_insertionSort (priorityLE links) pairs
  rcases hsort : List.insertionSort (priorityLE links) pairs with _ | ⟨hd0, rest⟩
  · rw [hsort] at h2
    cases h2
  · rw [hsort] at h2 hperm hsorted
    have hd0_eq : hd0 = (s, d) := by
      simpa using h2
    subst hd0_eq
    have hmem_pairs : (s, d) ∈ pairs := hperm.mem_iff.mp (by simp)
    have hmem_filter := List.mem_filter.mp hmem_pairs
    obtain ⟨hs, hdD⟩ := List.mem_product.mp hmem_filter.1
    refine ⟨hs, hdD, by simpa using hmem_filter.2, ?_⟩
    intro s' hs' d' hd' hsome
    have hmem' : (s', d') ∈ pairs := by
      rw [hpairs]
      exact List.mem_filter.mpr ⟨List.mem_product.mpr ⟨hs', hd'⟩, by simpa using hsome⟩
    have : (s', d') ∈ (s, d) :: rest := hperm.mem_iff.mpr hmem'
    rcases List.mem_cons.mp this with heq | hmem_rest
    · rw [heq]
    · exact (List.sorted_cons.mp hsorted).1 (s', d') hmem_rest

lemma find?_append_first {β : Type} (p : β → Bool) (pre post : List β) (a : β)
    (hpre : ∀ x ∈ pre, p x = false) (ha : p a = true) :
    List.find? p (pre ++ a :: post) = some a := by
  induction pre with
  | nil => simp [List.find?_cons, ha]
  | cons x xs ih =>
    have hx := hpre x (by simp)
    simp only [List.cons_append, List.find?_cons, hx]
    exact ih (fun y hy => hpre y (by simp [hy]))

lemma allocGo_err_eq (existing : List Ipv4) (end_ip : Ipv4) :
    ∀ (fuel : Nat) (ip : Ipv4) (e : Error),
      allocGo existing end_ip fuel ip = .err e →
      e = .NoWireGuardAddressAvailable := by
  intro fuel
  induction fuel with
  | zero =>
    intro ip e h
    cases h
  | succ fuel ih =>
    intro ip e h
    by_cases hmem : ip ∈ existing
    · by_cases hend : ip = end_ip
      · subst hend
        simp [allocGo, hmem] at h
        exact h.symm
      · rcases hinc : increment_ip ip with _ | ip'
        · simp [allocGo, hmem, hend, hinc] at h
          exact h.symm
        · simp only [allocGo, hmem, if_true, hend, if_false, hinc] at h
          exact ih ip' e h
    · simp [allocGo, hmem] at h

/-- C4: `increment_ip` is total on well-formed IPv4 addresses: it yields
`none` exactly on `255.255.255.255`, and on every other address it yields
`some` of a well-formed address whose big-endian 32-bit counter value is
exactly one greater. -/
theorem increment_ip_spec :
    ∀ ip : Ipv4, wfIp ip →
      (increment_ip ip = none ↔ ip = [255, 255, 255, 255]) ∧
      (∀ ip', increment_ip ip = some ip' →
        wfIp ip' ∧ ipToNat ip' = ipToNat ip + 1) ∧
      (ip ≠ [255, 255, 255, 255] → ∃ ip', increment_ip ip = some ip') := by
  intro ip hip
  refine ⟨increment_ip_eq_none ip hip,
    fun ip' h => increment_ip_eq_some ip ip' hip h, fun hne => ?_⟩
  obtain ⟨ip', h, _, _⟩ := increment_ip_some ip hip hne
  exact ⟨ip', h⟩

/-- Witness for C4 at the spec's own examples: `0.0.1.255 → 0.0.2.0`
(carry in the last octet), `3.255.255.255 → 4.0.0.0` (carry across three
octets), and no successor for `255.255.255.255`. -/
theorem increment_ip_spec_witness :
    wfIp [0, 0, 1, 255] ∧ increment_ip [0, 0, 1, 255] = some [0, 0, 2, 0] ∧
      ipToNat [0, 0, 2, 0] = ipToNat [0, 0, 1, 255] + 1 ∧
      increment_ip [3, 255, 255, 255] = some [4, 0, 0, 0] ∧
      increment_ip [255, 255, 255, 255] = none := by
  have h := increment_ip_spec [0, 0, 1, 255] (by decide)
  have h2 := (h.2.1 [0, 0, 2, 0] (by decide)).2
  have hb := (increment_ip_spec [255, 255, 255, 255] (by decide)).1.mpr rfl
  exact ⟨by decide, by decide, h2, by decide, hb⟩

/-- C3: for `start ≤ end`, the allocator returns the first candidate of the
scan `start, start+1, …` that lies in the inclusive range and is not in the
assigned set: if every candidate strictly before `start + k` is assigned and
`start + k ≤ end` is free, the result is exactly `start + k` (so the
numerically smallest free address of the range, with `end` itself checked as
the last candidate). -/
theorem get_unused_wireguard_ip_first_free
    (existing : List Ipv4) (start_ip end_ip : Ipv4) (k : Nat)
    (hs : wfIp start_ip) (he : wfIp end_ip)
    (_hse : ipToNat start_ip ≤ ipToNat end_ip)
    (hk : ipToNat start_ip + k ≤ ipToNat end_ip)
    (hfree : ipOfNat (ipToNat start_ip + k) ∉ existing)
    (hprev : ∀ j, j < k → ipOfNat (ipToNat start_ip + j) ∈ existing) :
    get_unused_wireguard_ip existing start_ip end_ip =
      .ok (ipOfNat (ipToNat start_ip + k)) := by
  unfold get_unused_wireguard_ip
  refine allocGo_first_free existing end_ip he k 4294967296 start_ip hs hk
    hfree hprev ?_
  have := ipToNat_lt end_ip he
  omega

/-- Witness for C3 at the spec's example: assigned set
`{10.0.0.1, 10.0.0.2}`, range `10.0.0.1``–``10.0.0.5`, allocation
`10.0.0.3`. -/
theorem get_unused_wireguard_ip_first_free_witness :
    get_unused_wireguard_ip [[10, 0, 0, 1], [10, 0, 0, 2]]
      [10, 0, 0, 1] [10, 0, 0, 5] = .ok [10, 0, 0, 3] := by
  have h := get_unused_wireguard_ip_first_free
    [[10, 0, 0, 1], [10, 0, 0, 2]] [10, 0, 0, 1] [10, 0, 0, 5] 2
    (by decide) (by decide) (by decide) (by decide) (by decide) (by decide)
  rw [h]
  decide

/-- C7: for `start ≤ end`, if every address of the inclusive range
`[start, end]` is already assigned, the allocator fails with the distinct
`NoWireGuardAddressAvailable` error, whose message names the configuration
of the exhausted range's bounds (`WIREGUARD_IP_START`/`WIREGUARD_IP_END`). -/
theorem get_unused_wireguard_ip_exhausted
    (existing : List Ipv4) (start_ip end_ip : Ipv4)
    (hs : wfIp start_ip) (he : wfIp end_ip)
    (hse : ipToNat start_ip ≤ ipToNat end_ip)
    (hall : ∀ j, j ≤ ipToNat end_ip - ipToNat start_ip →
      ipOfNat (ipToNat start_ip + j) ∈ existing) :
    get_unused_wireguard_ip existing start_ip end_ip =
      .err .NoWireGuardAddressAvailable ∧
    ∃ x y z, Error.display .NoWireGuardAddressAvailable =
      x ++ "WIREGUARD_IP_START" ++ y ++ "WIREGUARD_IP_END" ++ z := by
  constructor
  · unfold get_unused_wireguard_ip
    refine allocGo_exhaust existing end_ip he
      (ipToNat end_ip - ipToNat start_ip) 4294967296 start_ip hs
      (by omega) hall ?_
    have := ipToNat_lt end_ip he
    omega
  · exact ⟨"Could not find an unused WireGuard IP address; check ", " and ",
      "", rfl⟩

/-- Witness for C7: the whole range `10.0.0.1``–``10.0.0.5` is assigned. -/
theorem get_unused_wireguard_ip_exhausted_witness :
    get_unused_wireguard_ip
      [[10, 0, 0, 1], [10, 0, 0, 2], [10, 0, 0, 3], [10, 0, 0, 4], [10, 0, 0, 5]]
      [10, 0, 0, 1] [10, 0, 0, 5] = .err .NoWireGuardAddressAvailable :=
  (get_unused_wireguard_ip_exhausted
    [[10, 0, 0, 1], [10, 0, 0, 2], [10, 0, 0, 3], [10, 0, 0, 4], [10, 0, 0, 5]]
    [10, 0, 0, 1] [10, 0, 0, 5]
    (by decide) (by decide) (by decide) (by decide)).1

/-- C10: the allocator scan terminates for every assigned set and every pair
of bounds, including `start > end`: fuel `2 ^ 32` is never exhausted from a
well-formed start address, and the result is either the exhaustion error or
a returned allocation. -/
theorem get_unused_wireguard_ip_terminates
    (existing : List Ipv4) (start_ip end_ip : Ipv4) (hs : wfIp start_ip) :
    get_unused_wireguard_ip existing start_ip end_ip =
        .err .NoWireGuardAddressAvailable ∨
      ∃ ip, get_unused_wireguard_ip existing start_ip end_ip = .ok ip := by
  have h := allocGo_not_outOfFuel existing end_ip 4294967296 start_ip hs
    (by have := ipToNat_lt start_ip hs; omega)
  unfold get_unused_wireguard_ip at h ⊢
  rcases hres : allocGo existing end_ip 4294967296 start_ip with ip | e | _
  · exact Or.inr ⟨ip, rfl⟩
  · have he := allocGo_err_eq existing end_ip 4294967296 start_ip e hres
    exact Or.inl (by rw [he])
  · exact absurd hres h

/-- Witness for C10 with `start > end` (the boundary check never fires, the
scan still terminates). -/
theorem get_unused_wireguard_ip_terminates_witness :
    get_unused_wireguard_ip [] [10, 0, 0, 5] [10, 0, 0, 1] =
        .err .NoWireGuardAddressAvailable ∨
      ∃ ip, get_unused_wireguard_ip [] [10, 0, 0, 5] [10, 0, 0, 1] = .ok ip :=
  get_unused_wireguard_ip_terminates [] [10, 0, 0, 5] [10, 0, 0, 1] (by decide)

lemma renderBlock_eq_some {α : Type} (links : NetworkLinksMap)
    (sourceNetworks : List String) (md : Machine α × List (MachineAddress α))
    (b : Block α) (h : renderBlock links sourceNetworks md = some b) :
    b.hostname = md.1.hostname ∧
      (resolveEndpoint links sourceNetworks md.1 md.2).1.isSome ∧
      (resolveEndpoint links sourceNetworks md.1 md.2).2.isSome := by
  unfold renderBlock at h
  rcases hre : resolveEndpoint links sourceNetworks md.1 md.2 with ⟨oa, op⟩
  rw [hre] at h
  cases oa with
  | none => cases h
  | some a =>
    cases op with
    | none => cases h
    | some p =>
      cases h
      simp [hre]

lemma renderBlock_of_isSome {α : Type} (links : NetworkLinksMap)
    (sourceNetworks : List String) (md : Machine α × List (MachineAddress α))
    (h1 : (resolveEndpoint links sourceNetworks md.1 md.2).1.isSome)
    (h2 : (resolveEndpoint links sourceNetworks md.1 md.2).2.isSome) :
    ∃ b, renderBlock links sourceNetworks md = some b ∧
      b.hostname = md.1.hostname := by
  rcases hre : resolveEndpoint links sourceNetworks md.1 md.2 with ⟨oa, op⟩
  rw [hre] at h1 h2
  cases oa with
  | none => cases h1
  | some a =>
    cases op with
    | none => cases h2
    | some p => exact ⟨⟨md.1.owner, md.1.hostname, a, p⟩, by simp [renderBlock, hre], rfl⟩

/-- C1: the best-link query keeps exactly the pairs of the Cartesian product
present in the links map and returns a kept pair of numerically smallest
priority, `none` when no pair is kept; on links `(A,B)=5, (A,C)=1` with
sources `{A}` and destinations `{B,C}` it returns `(A,C)`. -/
theorem bestLink_spec :
    (∀ (links : NetworkLinksMap) (S D : List String),
      bestLink links S D = none ↔
        ∀ s ∈ S, ∀ d ∈ D, lookupLink links (s, d) = none) ∧
    (∀ (links : NetworkLinksMap) (S D : List String) (s d : String),
      bestLink links S D = some (s, d) →
        s ∈ S ∧ d ∈ D ∧ (lookupLink links (s, d)).isSome ∧
          ∀ s' ∈ S, ∀ d' ∈ D, (lookupLink links (s', d')).isSome →
            linkPriority links (s, d) ≤ linkPriority links (s', d')) ∧
    bestLink [(("A", "B"), 5), (("A", "C"), 1)] ["A"] ["B", "C"] =
      some ("A", "C") :=
  ⟨bestLink_eq_none_iff, bestLink_eq_some, by decide⟩

/-- Witness for C1: at the spec's example the returned pair `(A,C)` is kept
and its priority (1) is at most that of the other kept pair `(A,B)` (5);
with an empty links map the query returns `none`. -/
theorem bestLink_spec_witness :
    bestLink [] ["A"] ["B"] = none ∧
    linkPriority [(("A", "B"), 5), (("A", "C"), 1)] ("A", "C") ≤
      linkPriority [(("A", "B"), 5), (("A", "C"), 1)] ("A", "B") := by
  refine ⟨(bestLink_spec.1 [] ["A"] ["B"]).mpr (by decide), ?_⟩
  exact (bestLink_spec.2.1 [(("A", "B"), 5), (("A", "C"), 1)] ["A"] ["B", "C"]
    "A" "C" bestLink_spec.2.2).2.2.2 "A" (by decide) "B" (by decide) (by decide)

/-- C2: when no pair of the source networks and the destination machine's
networks is present in the links map, the resolved endpoint is the machine's
`wireguard_ip` (IP portion only) with the machine-level `ssh_port`. -/
theorem resolveEndpoint_fallback {α : Type} (links : NetworkLinksMap)
    (sourceNetworks : List String) (machine : Machine α)
    (addresses : List (MachineAddress α))
    (hnone : ∀ s ∈ sourceNetworks, ∀ a ∈ addresses,
      lookupLink links (s, a.network) = none) :
    resolveEndpoint links sourceNetworks machine addresses =
      (machine.wireguard_ip.map (fun o => o.ip), machine.ssh_port) := by
  have hb : bestLink links sourceNetworks
      (addresses.map (fun a => a.network)) = none := by
    rw [bestLink_eq_none_iff]
    intro s hs d hd
    obtain ⟨a, ha, rfl⟩ := List.mem_map.mp hd
    exact hnone s hs a ha
  simp [resolveEndpoint, hb]

/-- Witness for C2 at the spec's end-to-end scenario: `bob` is reachable only
on the unlinked `public` network, so the resolver picks the WireGuard
fallback `10.8.0.3` with `bob`'s machine-level port, not the public
address. -/
theorem resolveEndpoint_fallback_witness :
    resolveEndpoint (α := String) [] ["office"]
      ⟨"bob", "bo", some 22, some ⟨"10.8.0.3", 32⟩⟩
      [⟨"public", ⟨"203.0.113.5", 32⟩, some 2222⟩] =
      (some "10.8.0.3", some 22) := by
  have h := resolveEndpoint_fallback (α := String) [] ["office"]
    ⟨"bob", "bo", some 22, some ⟨"10.8.0.3", 32⟩⟩
    [⟨"public", ⟨"203.0.113.5", 32⟩, some 2222⟩] (by decide)
  rw [h]
  rfl

/-- C8: when a best link `(s, d)` exists, the resolver selects the
destination machine's address on network `d` and that address's own
`ssh_port` override (not the machine-level port); consequently, when the
selected address has no port override the machine produces no output block
even if its machine-level port is set. -/
theorem resolveEndpoint_linked {α : Type} (links : NetworkLinksMap)
    (sourceNetworks : List String) (machine : Machine α)
    (addresses : List (MachineAddress α)) (s d : String)
    (hb : bestLink links sourceNetworks
      (addresses.map (fun a => a.network)) = some (s, d)) :
    ∃ a, addresses.find? (fun x => decide (x.network = d)) = some a ∧
      resolveEndpoint links sourceNetworks machine addresses =
        (some a.address.ip, a.ssh_port) ∧
      (a.ssh_port = none →
        renderBlock links sourceNetworks (machine, addresses) = none) := by
  have hd : d ∈ addresses.map (fun a => a.network) :=
    (bestLink_eq_some links sourceNetworks
      (addresses.map (fun a => a.network)) s d hb).2.1
  obtain ⟨a0, ha0, hnet⟩ := List.mem_map.mp hd
  have hsome : (addresses.find? (fun x => decide (x.network = d))).isSome :=
    List.find?_isSome.mpr ⟨a0, ha0, by simp [hnet]⟩
  obtain ⟨a, ha⟩ := Option.isSome_iff_exists.mp hsome
  have hres : resolveEndpoint links sourceNetworks machine addresses =
      (some a.address.ip, a.ssh_port) := by
    simp [resolveEndpoint, hb, ha]
  refine ⟨a, ha, hres, fun hport => ?_⟩
  simp [renderBlock, hres, hport]

/-- Witness for C8: with `office` linked to `public`, `bob`'s public address
and its per-address port 2222 are selected (not the machine-level port
22). -/
theorem resolveEndpoint_linked_witness :
    resolveEndpoint (α := String) [(("office", "public"), 1)] ["office"]
      ⟨"bob", "bo", some 22, some ⟨"10.8.0.3", 32⟩⟩
      [⟨"public", ⟨"203.0.113.5", 32⟩, some 2222⟩] =
      (some "203.0.113.5", some 2222) := by
  obtain ⟨a, ha, hres, _⟩ := resolveEndpoint_linked (α := String)
    [(("office", "public"), 1)] ["office"]
    ⟨"bob", "bo", some 22, some ⟨"10.8.0.3", 32⟩⟩
    [⟨"public", ⟨"203.0.113.5", 32⟩, some 2222⟩] "office" "public" (by decide)
  have hfind : ([⟨"public", ⟨"203.0.113.5", 32⟩, some 2222⟩] :
      List (MachineAddress String)).find? (fun x => decide (x.network = "public")) =
      some ⟨"public", ⟨"203.0.113.5", 32⟩, some 2222⟩ := by decide
  rw [hfind] at ha
  injection ha with h
  rw [← h] at hres
  exact hres

/-- C9: when the destination machine has several address rows on the chosen
network `d`, the resolver deterministically picks the first row (in loaded
order) whose network is `d`, without failing or falling back. -/
theorem resolveEndpoint_first_match {α : Type} (links : NetworkLinksMap)
    (sourceNetworks : List String) (machine : Machine α)
    (pre post : List (MachineAddress α)) (a : MachineAddress α) (s d : String)
    (hpre : ∀ x ∈ pre, x.network ≠ d) (ha : a.network = d)
    (hb : bestLink links sourceNetworks
      ((pre ++ a :: post).map (fun x => x.network)) = some (s, d)) :
    resolveEndpoint links sourceNetworks machine (pre ++ a :: post) =
      (some a.address.ip, a.ssh_port) := by
  have hfind := find?_append_first (fun x => decide (x.network = d)) pre post a
    (fun x hx => by simp [hpre x hx]) (by simp [ha])
  simp only [resolveEndpoint, hb, hfind]

/-- Witness for C9: two rows on `public`; the first one (`203.0.113.5`, port
2222) is selected, not the second (`198.51.100.7`). -/
theorem resolveEndpoint_first_match_witness :
    resolveEndpoint (α := String) [(("office", "public"), 1)] ["office"]
      ⟨"bob", "bo", some 22, some ⟨"10.8.0.3", 32⟩⟩
      [⟨"dmz", ⟨"192.168.1.9", 32⟩, some 2022⟩,
       ⟨"public", ⟨"203.0.113.5", 32⟩, some 2222⟩,
       ⟨"public", ⟨"198.51.100.7", 32⟩, some 2223⟩] =
      (some "203.0.113.5", some 2222) :=
  resolveEndpoint_first_match (α := String) [(("office", "public"), 1)]
    ["office"] ⟨"bob", "bo", some 22, some ⟨"10.8.0.3", 32⟩⟩
    [⟨"dmz", ⟨"192.168.1.9", 32⟩, some 2022⟩]
    [⟨"public", ⟨"198.51.100.7", 32⟩, some 2223⟩]
    ⟨"public", ⟨"203.0.113.5", 32⟩, some 2222⟩ "office" "public"
    (by decide) rfl (by decide)

/-- C6: the resolution fails (with the `MissingSourceMachine` error naming
the requested hostname) if and only if no machine in the loaded inventory has
that hostname, and this is the only error it can produce. -/
theorem print_ssh_config_missing_source {α : Type}
    (data : List (Machine α × List (MachineAddress α)))
    (links : NetworkLinksMap) (for_machine : String) :
    ((∃ e, print_ssh_config data links for_machine = .error e) ↔
      ∀ md ∈ data, md.1.hostname ≠ for_machine) ∧
    ∀ e, print_ssh_config data links for_machine = .error e →
      e = .MissingSourceMachine for_machine := by
  rcases hfind : data.find? (fun md => decide (md.1.hostname = for_machine))
    with _ | src
  · have hres : print_ssh_config data links for_machine =
        .error (.MissingSourceMachine for_machine) := by
      unfold print_ssh_config
      rw [hfind]
    rw [List.find?_eq_none] at hfind
    refine ⟨⟨fun _ => ?_, fun _ => ⟨_, hres⟩⟩, fun e he => ?_⟩
    · intro md hmd
      have := hfind md hmd
      simpa using this
    · rw [hres] at he
      injection he with h
      exact h.symm
  · obtain ⟨sm, saddrs⟩ := src
    have hres : print_ssh_config data links for_machine =
        .ok (data.filterMap
          (renderBlock links (saddrs.map (fun a => a.network)))) := by
      unfold print_ssh_config
      rw [hfind]
    have hmem := List.mem_of_find?_eq_some hfind
    have hname : sm.hostname = for_machine := by
      have := List.find?_some hfind
      simpa using this
    refine ⟨⟨?_, ?_⟩, ?_⟩
    · rintro ⟨e, he⟩
      rw [hres] at he
      cases he
    · intro hall
      exact absurd hname (hall (sm, saddrs) hmem)
    · intro e he
      rw [hres] at he
      cases he

/-- Witness for C6: resolving for absent hostname `bob` against an inventory
holding only `alice` yields exactly the missing-source-machine error naming
`bob`. -/
theorem print_ssh_config_missing_source_witness :
    print_ssh_config (α := String)
      [(⟨"alice", "ada", some 22, some ⟨"10.8.0.2", 32⟩⟩,
        [⟨"office", ⟨"10.1.1.1", 32⟩, some 22⟩])] [] "bob" =
      .error (.MissingSourceMachine "bob") := by
  have h := print_ssh_config_missing_source (α := String)
    [(⟨"alice", "ada", some 22, some ⟨"10.8.0.2", 32⟩⟩,
      [⟨"office", ⟨"10.1.1.1", 32⟩, some 22⟩])] [] "bob"
  obtain ⟨e, he⟩ := h.1.mpr (by decide)
  have he2 := h.2 e he
  rw [he2] at he
  exact he

/-- C5: when the source machine is found, resolution raises no error, and
(under the inventory's unique-hostname key) a destination machine gets an
output block exactly when both components of its resolved endpoint are
present; a machine with a missing component is silently omitted. -/
theorem print_ssh_config_omits_incomplete {α : Type}
    (data : List (Machine α × List (MachineAddress α)))
    (links : NetworkLinksMap) (for_machine : String)
    (src : Machine α × List (MachineAddress α))
    (hnodup : (data.map (fun md => md.1.hostname)).Nodup)
    (hfind : data.find? (fun md => decide (md.1.hostname = for_machine)) =
      some src) :
    ∃ blocks, print_ssh_config data links for_machine = .ok blocks ∧
      ∀ md ∈ data,
        ((∃ b ∈ blocks, b.hostname = md.1.hostname) ↔
          ((resolveEndpoint links (src.2.map (fun a => a.network))
              md.1 md.2).1.isSome ∧
            (resolveEndpoint links (src.2.map (fun a => a.network))
              md.1 md.2).2.isSome)) := by
  obtain ⟨sm, saddrs⟩ := src
  refine ⟨data.filterMap (renderBlock links (saddrs.map (fun a => a.network))),
    ?_, ?_⟩
  · unfold print_ssh_config
    rw [hfind]
  · intro md hmd
    constructor
    · rintro ⟨b, hb, hhost⟩
      obtain ⟨md', hmd', hrb⟩ := List.mem_filterMap.mp hb
      obtain ⟨hh, h1, h2⟩ := renderBlock_eq_some _ _ _ _ hrb
      have heq : md' = md :=
        List.inj_on_of_nodup_map hnodup hmd' hmd (by rw [← hh, hhost])
      rw [heq] at h1 h2
      exact ⟨h1, h2⟩
    · rintro ⟨h1, h2⟩
      obtain ⟨b, hrb, hh⟩ := renderBlock_of_isSome links
        (saddrs.map (fun a => a.network)) md h1 h2
      exact ⟨b, List.mem_filterMap.mpr ⟨md, hmd, hrb⟩, hh⟩

/-- Witness for C5: inventory `alice`/`bob`/`carol` with no links, resolved
for `alice`: the theorem applies, yielding the error-free block list and the
emission criterion (`carol`, with no WireGuard IP and no port, is
omitted). -/
theorem print_ssh_config_omits_incomplete_witness :
    ∃ blocks, print_ssh_config (α := String)
        [(⟨"alice", "ada", some 22, some ⟨"10.8.0.2", 32⟩⟩,
          [⟨"office", ⟨"10.1.1.1", 32⟩, some 22⟩]),
         (⟨"bob", "bo", some 22, some ⟨"10.8.0.3", 32⟩⟩,
          [⟨"public", ⟨"203.0.113.5", 32⟩, some 2222⟩]),
         (⟨"carol", "cc", none, none⟩, [])] [] "alice" = .ok blocks ∧
      ∀ md ∈ [(⟨"alice", "ada", some 22, some ⟨"10.8.0.2", 32⟩⟩,
          [⟨"office", ⟨"10.1.1.1", 32⟩, some 22⟩]),
         (⟨"bob", "bo", some 22, some ⟨"10.8.0.3", 32⟩⟩,
          [⟨"public", ⟨"203.0.113.5", 32⟩, some 2222⟩]),
         (⟨"carol", "cc", none, none⟩, ([] : List (MachineAddress String)))],
        ((∃ b ∈ blocks, b.hostname = md.1.hostname) ↔
          ((resolveEndpoint [] ["office"] md.1 md.2).1.isSome ∧
            (resolveEndpoint [] ["office"] md.1 md.2).2.isSome)) :=
  print_ssh_config_omits_incomplete
    [(⟨"alice", "ada", some 22, some ⟨"10.8.0.2", 32⟩⟩,
      [⟨"office", ⟨"10.1.1.1", 32⟩, some 22⟩]),
     (⟨"bob", "bo", some 22, some ⟨"10.8.0.3", 32⟩⟩,
      [⟨"public", ⟨"203.0.113.5", 32⟩, some 2222⟩]),
     (⟨"carol", "cc", none, none⟩, [])] [] "alice"
    (⟨"alice", "ada", some 22, some ⟨"10.8.0.2", 32⟩⟩,
      [⟨"office", ⟨"10.1.1.1", 32⟩, some 22⟩])
    (by decide) (by decide)

end Infrabase
